import Mathlib

/-!
Verification of the fussy-git core against its design specification.

The development shallowly embeds the Go sources:
  * `internal/gitutil/url.go`   — URL parsing and scheme conversion,
  * the `state` package          — the repository registry store,
  * the `reorganize` command     — the reconciliation pass.
Go standard-library functions used by that code (`strings`, `path/filepath`,
`net/url`) are modelled by executable Lean functions that follow the Go
implementations on the relevant (unix, ASCII, escape-free) inputs.
-/

set_option maxRecDepth 20000

namespace FussyGit

/-- The characters of a string, used to run Go-style string scans. -/
def ofChars (cs : List Char) : String := ⟨cs⟩

/-- Model of Go `strings.HasPrefix`. -/
def goHasPre (s pre : String) : Bool := pre.data.isPrefixOf s.data

/-- Model of Go `strings.HasSuffix`. -/
def goHasSuf (s suf : String) : Bool := suf.data.isSuffixOf s.data

/-- Model of Go `strings.TrimPrefix`. -/
def goStripPre (s pre : String) : String :=
  if goHasPre s pre then ofChars (s.data.drop pre.data.length) else s

/-- Model of Go `strings.TrimSuffix`. -/
def goStripSuf (s suf : String) : String :=
  if goHasSuf s suf then ofChars (s.data.take (s.data.length - suf.data.length)) else s

/-- Model of Go `strings.Contains(s, <single character>)`. -/
def goContainsChar (s : String) (c : Char) : Bool := s.data.contains c

/-- Split a character list at every occurrence of `c` (Go `strings.Split` with a
one-character separator). -/
def splitOnCharAux (c : Char) : List Char → List Char → List (List Char)
  | [], acc => [acc.reverse]
  | x :: xs, acc =>
    if x = c then acc.reverse :: splitOnCharAux c xs []
    else splitOnCharAux c xs (x :: acc)

def splitOnChar (c : Char) (cs : List Char) : List (List Char) := splitOnCharAux c cs []

/-- Split at the first occurrence of `c`: the first component is everything
before it, the second component starts with `c` (or is empty). -/
def takeUntilChar (c : Char) : List Char → List Char × List Char
  | [] => ([], [])
  | x :: xs =>
    if x = c then ([], x :: xs)
    else
      let p := takeUntilChar c xs
      (x :: p.1, p.2)

/-- Index of the last occurrence of `c` (Go `strings.LastIndex` with a
one-character needle), counted in characters. -/
def lastIndexOfChar (cs : List Char) (c : Char) : Option Nat :=
  match cs.reverse.findIdx? (· == c) with
  | none => none
  | some j => some (cs.length - 1 - j)

/-- Model of Go `strings.ToLower` restricted to ASCII (schemes are validated to
be ASCII before it is applied). -/
def lowerChar (c : Char) : Char :=
  if 65 ≤ c.toNat ∧ c.toNat ≤ 90 then Char.ofNat (c.toNat + 32) else c

def toLowerStr (s : String) : String := ofChars (s.data.map lowerChar)

def dropTrailingSlashes (cs : List Char) : List Char :=
  (cs.reverse.dropWhile (· == '/')).reverse

/-- Model of Go `strings.TrimRight(s, string(filepath.Separator))` on unix. -/
def goTrimRightSlash (s : String) : String := ofChars (dropTrailingSlashes s.data)

/-- Stack step of Go `path/filepath.Clean`: `..` pops a previous element,
accumulates at the front of a relative path, and disappears at a root. -/
def cleanComps (rooted : Bool) (comps : List String) : List String :=
  (comps.foldl (fun acc c =>
    if c = ".." then
      match acc with
      | [] => if rooted then [] else [".."]
      | a :: rest => if a = ".." then c :: a :: rest else rest
    else c :: acc) []).reverse

/-- Model of Go `path/filepath.Clean` on unix paths. -/
def filepathClean (path : String) : String :=
  if path = "" then "."
  else
    let rooted := goHasPre path "/"
    let comps := ((splitOnChar '/' path.data).map ofChars).filter
      (fun c => !(c == "" || c == "."))
    let out := cleanComps rooted comps
    if rooted then "/" ++ String.intercalate "/" out
    else if out = [] then "." else String.intercalate "/" out

/-- Model of Go `path/filepath.Base` on unix paths. -/
def filepathBase (path : String) : String :=
  if path = "" then "."
  else
    let cs := dropTrailingSlashes path.data
    let b := (cs.reverse.takeWhile (· != '/')).reverse
    if b = [] then "/" else ofChars b

/-- Model of Go `path/filepath.Join` on unix paths: empty leading elements are
skipped, the rest are joined with `/` and cleaned. -/
def filepathJoin (elems : List String) : String :=
  match elems.dropWhile (· == "") with
  | [] => ""
  | l => filepathClean (String.intercalate "/" l)

/-- Model of Go `path/filepath.Dir` on unix paths. -/
def filepathDir (path : String) : String :=
  filepathClean (ofChars ((path.data.reverse.dropWhile (· != '/')).reverse))

/-! ### The SCP-like URL regular expression

`scpLikeURLRegex = ^([a-zA-Z0-9_.-]+)@([a-zA-Z0-9.-]+):(.*)$` from
`internal/gitutil/url.go`.  Both character classes exclude `@` and `:`, so a
match decomposes the string at its first `@` and at the first following
character outside the host class, which must be `:`; `.` does not match a
newline and `$` only matches at the end of the text, so a newline after the
colon defeats the match. -/

def scpUserChar (c : Char) : Bool := c.isAlphanum || c == '_' || c == '.' || c == '-'

def scpHostChar (c : Char) : Bool := c.isAlphanum || c == '.' || c == '-'

def scpMatch (s : String) : Option (String × String × String) :=
  let p1 := s.data.span scpUserChar
  match p1.1, p1.2 with
  | [], _ => none
  | _ :: _, '@' :: rest2 =>
    let p2 := rest2.span scpHostChar
    match p2.1, p2.2 with
    | [], _ => none
    | _ :: _, ':' :: rest4 =>
      if rest4.contains '\n' then none
      else some (ofChars p1.1, ofChars p2.1, ofChars rest4)
    | _, _ => none
  | _, _ => none

/-! ### Model of Go `net/url.Parse`

Only the fields `ParseGitURL` consumes are kept: `Scheme`, `User`
(presence and username), `Host` and `Path`.  Percent-escapes are not
modelled: a `%` in userinfo, host or path makes the model fail, which is a
conservative restriction of Go's escape decoding. -/

structure GoURL where
  Scheme : String
  Opq : String
  HasUser : Bool
  Username : String
  Host : String
  Path : String
deriving DecidableEq

/-- Model of `net/url`'s `getScheme`: longest ASCII-alphanumeric/`+-.` run
starting with a letter, terminated by `:`.  Any other shape leaves the whole
string as the path; a leading `:` is an error. -/
def getSchemeAux (orig : String) : List Char → List Char → Option (String × String)
  | [], _ => some ("", orig)
  | c :: cs, acc =>
    if c.isAlpha then getSchemeAux orig cs (c :: acc)
    else if c.isDigit || c == '+' || c == '-' || c == '.' then
      (if acc.isEmpty then some ("", orig) else getSchemeAux orig cs (c :: acc))
    else if c == ':' then
      (if acc.isEmpty then none else some (ofChars acc.reverse, ofChars cs))
    else some ("", orig)

def getScheme (raw : String) : Option (String × String) := getSchemeAux raw raw.data []

/-- Model of `net/url`'s `validOptionalPort`. -/
def validOptionalPort (p : String) : Bool :=
  p == "" || (goHasPre p ":" && (p.data.drop 1).all (·.isDigit))

/-- Characters `net/url` accepts unescaped in a host (its `shouldEscape` with
the host mode); multi-byte characters pass through unescaped. -/
def hostCharOK (c : Char) : Bool :=
  c.isAlphanum || c == '-' || c == '_' || c == '.' || c == '~' || c == '!' ||
  c == '$' || c == '&' || c == '\'' || c == '(' || c == ')' || c == '*' ||
  c == '+' || c == ',' || c == ';' || c == '=' || c == ':' || c == '[' ||
  c == ']' || c == '<' || c == '>' || c == '\"' || decide (128 ≤ c.toNat)

/-- Characters `net/url`'s `validUserinfo` accepts. -/
def userinfoCharOK (c : Char) : Bool :=
  c.isAlphanum || c == '-' || c == '.' || c == '_' || c == ':' || c == '~' ||
  c == '!' || c == '$' || c == '&' || c == '\'' || c == '(' || c == ')' ||
  c == '*' || c == '+' || c == ',' || c == ';' || c == '=' || c == '%' || c == '@'

/-- Model of `net/url`'s `parseHost` (returns the host with any port still
attached, as `u.Host` does). -/
def parseHostGo (host : String) : Option String :=
  if goHasPre host "[" then
    match lastIndexOfChar host.data ']' with
    | none => none
    | some i =>
      if validOptionalPort (ofChars (host.data.drop (i + 1))) then
        if host.data.contains '%' then none
        else if host.data.all hostCharOK then some host else none
      else none
  else
    let portOK := match lastIndexOfChar host.data ':' with
      | some i => validOptionalPort (ofChars (host.data.drop i))
      | none => true
    if portOK then
      if host.data.contains '%' then none
      else if host.data.all hostCharOK then some host else none
    else none

/-- Model of `net/url`'s `parseAuthority`: split at the last `@`, validate the
userinfo, parse the host; the username is the userinfo up to the first `:`. -/
def parseAuthorityGo (authority : String) : Option (Bool × String × String) :=
  match lastIndexOfChar authority.data '@' with
  | none =>
    match parseHostGo authority with
    | none => none
    | some h => some (false, "", h)
  | some i =>
    let userinfo := ofChars (authority.data.take i)
    match parseHostGo (ofChars (authority.data.drop (i + 1))) with
    | none => none
    | some h =>
      if userinfo.data.all userinfoCharOK then
        if userinfo.data.contains '%' then none
        else some (true, ofChars (takeUntilChar ':' userinfo.data).1, h)
      else none

/-- Model of Go `net/url.Parse` (with `viaRequest = false`): cut the fragment,
reject control characters, extract and lowercase the scheme, cut the query,
then parse either an authority-rooted URL, an opaque rootless form, or a bare
path (rejecting a colon in the first segment of a schemeless relative path). -/
def urlParse (rawURL : String) : Option GoURL :=
  let u := ofChars (takeUntilChar '#' rawURL.data).1
  if u.data.any (fun c => c.toNat < 32 || c.toNat == 127) then none
  else
    match getScheme u with
    | none => none
    | some (scheme0, rest0) =>
      let scheme := toLowerStr scheme0
      let rest := ofChars (takeUntilChar '?' rest0.data).1
      if goHasPre rest "//" && (!(scheme == "") || !(goHasPre rest "///")) then
        let afterSlashes := rest.data.drop 2
        let ap := takeUntilChar '/' afterSlashes
        match parseAuthorityGo (ofChars ap.1) with
        | none => none
        | some hs =>
          if ap.2.contains '%' then none
          else some { Scheme := scheme, Opq := "", HasUser := hs.1,
                      Username := hs.2.1, Host := hs.2.2, Path := ofChars ap.2 }
      else if !(scheme == "") && !(goHasPre rest "/") then
        some { Scheme := scheme, Opq := rest, HasUser := false, Username := "",
               Host := "", Path := "" }
      else if scheme == "" && (takeUntilChar '/' rest.data).1.contains ':' then none
      else if rest.data.contains '%' then none
      else some { Scheme := scheme, Opq := "", HasUser := false, Username := "",
                  Host := "", Path := rest }

/-- Model of `net/url`'s `URL.Hostname()`: strip a valid port, then brackets. -/
def goHostname (host : String) : String :=
  let h := match lastIndexOfChar host.data ':' with
    | some i =>
      if validOptionalPort (ofChars (host.data.drop i)) then ofChars (host.data.take i)
      else host
    | none => host
  if goHasPre h "[" && goHasSuf h "]" then ofChars ((h.data.drop 1).take (h.data.length - 2))
  else h

/-! ### `internal/gitutil/url.go` -/

/-- The components of a parsed Git URL (`ParsedGitURL` in `url.go`). -/
structure ParsedGitURL where
  OriginalURL : String
  Scheme : String
  User : String
  Host : String
  Domain : String
  Path : String
  RepoName : String
  IsSSH : Bool
deriving DecidableEq

/-- `ParseGitURL` from `url.go`: try the SCP-like form first, otherwise parse
as a standard URL, then apply the scheme-specific handling and the final
domain/repo-name check; `none` models an error return. -/
def parseGitURL (repoURL : String) : Option ParsedGitURL :=
  match scpMatch repoURL with
  | some (user, host, rawPath) =>
    let p := goStripPre rawPath "/"
    some { OriginalURL := repoURL, Scheme := "ssh", User := user, Host := host,
           Domain := host, Path := p,
           RepoName := goStripSuf (filepathBase p) ".git", IsSSH := true }
  | none =>
    match urlParse repoURL with
    | none => none
    | some u =>
      let p0 := goStripPre u.Path "/"
      let base : ParsedGitURL :=
        { OriginalURL := repoURL, Scheme := u.Scheme,
          User := if u.HasUser then u.Username else "",
          Host := u.Host, Domain := goHostname u.Host, Path := p0,
          RepoName := goStripSuf (filepathBase p0) ".git", IsSSH := false }
      if u.Scheme = "ssh" then
        let p1 := { base with IsSSH := true }
        if p1.Domain = "" ∨ p1.RepoName = "" then none else some p1
      else if u.Scheme = "http" ∨ u.Scheme = "https" then
        if base.Domain = "" ∨ base.RepoName = "" then none else some base
      else if u.Scheme = "git" then
        if base.Domain = "" ∨ base.RepoName = "" then none else some base
      else if u.Scheme = "" ∧ goContainsChar repoURL ':' then none
      else if u.Scheme = "" ∧ ¬ goContainsChar repoURL ':' then
        let lp := goStripSuf repoURL ".git"
        let p1 := { base with
          Scheme := "file"
          Path := lp
          RepoName := goStripSuf (filepathBase lp) ".git"
          Domain := "local"
          User := "" }
        if p1.Domain = "" ∨ p1.RepoName = "" then none else some p1
      else
        if base.Domain = "" ∨ base.RepoName = "" then none else some base

/-- `GetLocalPath` from `url.go`. -/
def getLocalPath (pu : ParsedGitURL) (fussyGitHome : String) : String :=
  filepathJoin [fussyGitHome, pu.Domain, pu.Path]

/-- `GetNormalizedFSPath` from `url.go`. -/
def getNormalizedFSPath (pu : ParsedGitURL) : String :=
  filepathJoin [pu.Domain, pu.Path]

/-- `ToSSH` from `url.go`; `none` models an error return (whose accompanying
string value is empty). -/
def toSSH (pu : ParsedGitURL) : Option String :=
  if pu.IsSSH then some pu.OriginalURL
  else if pu.Scheme = "https" ∨ pu.Scheme = "http" then
    if pu.Domain = "" ∨ pu.Path = "" then none
    else
      let sshPath := if goHasSuf pu.Path ".git" then pu.Path else pu.Path ++ ".git"
      let sshUser := if pu.User ≠ "" ∧ pu.Scheme = "ssh" then pu.User else "git"
      some (sshUser ++ "@" ++ pu.Domain ++ ":" ++ sshPath)
  else none

/-- `ToHTTPS` from `url.go`; `none` models an error return (whose accompanying
string value is empty). -/
def toHTTPS (pu : ParsedGitURL) : Option String :=
  if ¬ pu.IsSSH ∧ (pu.Scheme = "https" ∨ pu.Scheme = "http") then some pu.OriginalURL
  else if pu.Scheme = "ssh" ∨ pu.Scheme = "git" then
    if pu.Domain = "" ∨ pu.Path = "" then none
    else some ("https://" ++ pu.Domain ++ "/" ++ goStripSuf pu.Path ".git")
  else none

/-! ### The `state` package

`time.Time` values are modelled as natural numbers, with `0` as the zero
value (`IsZero`). -/

/-- `RepositoryEntry` from the `state` package. -/
structure RepositoryEntry where
  Name : String
  Path : String
  OriginalURL : String
  CurrentURL : String
  Domain : String
  NormalizedFS : String
  LastChecked : Nat
  LastModified : Nat
  ClonedAt : Nat
  ManuallyAdded : Bool
  Notes : String
deriving DecidableEq

/-- The loop of `AddRepository`: replace the first entry with the same path
(carrying fields forward when the incoming entry leaves them unset), or append
as new. -/
def addLoop (entry : RepositoryEntry) : List RepositoryEntry → List RepositoryEntry
  | [] => [entry]
  | r :: rest =>
    if r.Path = entry.Path then
      let e1 := if entry.OriginalURL = "" then { entry with OriginalURL := r.OriginalURL }
                else entry
      let e2 := if e1.ClonedAt = 0 then { e1 with ClonedAt := r.ClonedAt } else e1
      e2 :: rest
    else r :: addLoop entry rest

/-- `AddRepository` from the `state` package; the state is its entry list and
`now` stands for `time.Now()`.  `none` models an error return, which leaves
the state unchanged. -/
def addRepository (now : Nat) (repos : List RepositoryEntry)
    (entry : RepositoryEntry) : Option (List RepositoryEntry) :=
  if entry.Path = "" then none
  else if entry.OriginalURL = "" then none
  else
    let e1 := { entry with LastModified := now }
    let e2 := if e1.ClonedAt = 0 then { e1 with ClonedAt := now } else e1
    let e3 := if e2.LastChecked = 0 then { e2 with LastChecked := now } else e2
    some (addLoop e3 repos)

/-- The pure search of `FindRepositoryByPath`: first entry with the path. -/
def findRepositoryByPath : List RepositoryEntry → String → Option RepositoryEntry
  | [], _ => none
  | r :: rest, path => if r.Path = path then some r else findRepositoryByPath rest path

/-- The pure search of `FindRepositoryByOriginalURL`. -/
def findRepositoryByOriginalURL : List RepositoryEntry → String → Option RepositoryEntry
  | [], _ => none
  | r :: rest, url =>
    if r.OriginalURL = url then some r else findRepositoryByOriginalURL rest url

/-! To reason about aliasing, memory is modelled as a list of entry cells
addressed by index.  The store's backing array occupies the cells below
`storeLen`; the Go `for _, r := range` loop copies each element into the loop
variable `r`, so `return &r, true` allocates/returns a cell distinct from the
backing array, holding a copy of the matching entry.  The model returns the
address of that fresh cell together with the new memory. -/

/-- `FindRepositoryByPath` with its result pointer made explicit: on a match
the copy held by the loop variable is a fresh cell appended to memory. -/
def findByPathAlloc (mem : List RepositoryEntry) (storeLen : Nat) (path : String) :
    Option Nat × List RepositoryEntry :=
  match findRepositoryByPath (mem.take storeLen) path with
  | none => (none, mem)
  | some r => (some mem.length, mem ++ [r])

/-- `FindRepositoryByOriginalURL` with its result pointer made explicit. -/
def findByURLAlloc (mem : List RepositoryEntry) (storeLen : Nat) (url : String) :
    Option Nat × List RepositoryEntry :=
  match findRepositoryByOriginalURL (mem.take storeLen) url with
  | none => (none, mem)
  | some r => (some mem.length, mem ++ [r])

/-! ### The `reorganize` command (the reconciliation pass)

External collaborators are modelled explicitly: the filesystem as the list of
existing paths (`os.Stat` succeeds exactly on members; `os.MkdirAll` and a
successful `os.Rename` update it), and the remote inspector as two functions
(`IsGitRepository`, and `GetRemoteOriginURL` whose `none` is an error). -/

/-- The external collaborators consulted by the pass. -/
structure RemoteEnv where
  isGitRepo : String → Bool
  remoteOrigin : String → Option String

def fsMem (fs : List String) (p : String) : Bool := fs.contains p

/-- `os.MkdirAll` for the parent directory of a move target (ancestors other
than the directory itself are elided; the call is assumed to succeed). -/
def mkdirAllFs (fs : List String) (dir : String) : List String := dir :: fs

/-- A successful `os.Rename`: the source stops existing, the target starts. -/
def renameFs (fs : List String) (a b : String) : List String := b :: fs.erase a

/-- One proposed change, tagged by which `actionsProposed++` site recorded
it: the remote-URL update at the URL check, or the move at the path check. -/
inductive ProposedAction where
  | urlUpdate
  | move
deriving DecidableEq

/-- Lines 66–100 of the reorganize command: the per-entry health checks
(path exists, is a repository, live origin URL readable and parsable).
`none` means the entry is skipped and kept unchanged. -/
def healthCheck (env : RemoteEnv) (fs : List String) (entry : RepositoryEntry) :
    Option (String × ParsedGitURL) :=
  if ¬ fsMem fs entry.Path then none
  else if ¬ env.isGitRepo entry.Path then none
  else
    match env.remoteOrigin entry.Path with
    | none => none
    | some live =>
      match parseGitURL live with
      | none => none
      | some pl => some (live, pl)

/-- Result of the URL check: the (possibly updated) entry, whether an update
was proposed, and whether one was applied (contributing to `actionsTaken`
and `stateModified`). -/
structure UrlCheckOut where
  repo : RepositoryEntry
  urlProposed : Bool
  urlTaken : Bool
deriving DecidableEq

/-- Lines 102–126: compare the stored `CurrentURL` and the live origin URL
after normalizing both to HTTPS form, conversion errors yielding the empty
string; on inequality (or an unparsable stored URL) propose an update, and
when applying set `CurrentURL` (and `OriginalURL` if it tracked the old
`CurrentURL`) to the live URL. -/
def urlCheck (dryRun : Bool) (entry : RepositoryEntry) (live : String)
    (pl : ParsedGitURL) : UrlCheckOut :=
  let parsedStored := parseGitURL entry.CurrentURL
  let liveHTTPS := (toHTTPS pl).getD ""
  let storedHTTPS := (parsedStored.bind toHTTPS).getD ""
  if parsedStored.isNone || !(liveHTTPS == storedHTTPS) then
    let oldURL := entry.CurrentURL
    if ¬ dryRun then
      { repo := { entry with
          CurrentURL := live
          OriginalURL := if entry.OriginalURL = oldURL then live else entry.OriginalURL }
        urlProposed := true, urlTaken := true }
    else { repo := entry, urlProposed := true, urlTaken := false }
  else { repo := entry, urlProposed := false, urlTaken := false }

/-- Result of the path check (lines 128–170). -/
inductive PathCheckOut where
  | unparsable (repo : RepositoryEntry)
  | done (repo : RepositoryEntry) (fs : List String)
         (rename : Option (String × String)) (moveProposed : Bool)
         (moveTaken : Bool) (fp : ParsedGitURL)
deriving DecidableEq

/-- Lines 128–170: recompute the conventional path from the (possibly updated)
`CurrentURL`; when the cleaned actual and conventional paths differ, propose a
move, and when applying, refuse it if the target already exists, otherwise
create the parent directory, rename, and update the entry's path. -/
def pathCheck (home : String) (dryRun : Bool) (fs : List String)
    (repo : RepositoryEntry) : PathCheckOut :=
  match parseGitURL repo.CurrentURL with
  | none => .unparsable repo
  | some fp =>
    let conventionalPath := getLocalPath fp home
    let na := goTrimRightSlash (filepathClean repo.Path)
    let nc := goTrimRightSlash (filepathClean conventionalPath)
    if na ≠ nc then
      if ¬ dryRun then
        if fsMem fs conventionalPath then
          .done repo fs none true false fp
        else
          let fs1 := mkdirAllFs fs (filepathDir conventionalPath)
          let fs2 := renameFs fs1 repo.Path conventionalPath
          .done { repo with Path := conventionalPath } fs2
               (some (repo.Path, conventionalPath)) true true fp
      else .done repo fs none true false fp
    else .done repo fs none false false fp

/-- Lines 172–181: re-derive the entry name from the URL; only a non-dry run
marks the state modified. -/
def nameCheck (dryRun : Bool) (repo : RepositoryEntry) (fp : ParsedGitURL) :
    RepositoryEntry × Bool :=
  if repo.Name ≠ fp.RepoName then ({ repo with Name := fp.RepoName }, !dryRun)
  else (repo, false)

/-- The accumulated state of one reconciliation pass. -/
structure PassState where
  fs : List String
  updated : List RepositoryEntry
  proposed : List ProposedAction
  taken : Nat
  modified : Bool
  renames : List (String × String)
deriving DecidableEq

/-- The loop body (lines 60–193): health checks, URL check, path check, name
check, and appending the resulting entry to `updatedRepositories`. -/
def processEntry (env : RemoteEnv) (home : String) (dryRun : Bool)
    (st : PassState) (entry : RepositoryEntry) : PassState :=
  match healthCheck env st.fs entry with
  | none => { st with updated := st.updated ++ [entry] }
  | some (live, pl) =>
    let u := urlCheck dryRun entry live pl
    let proposed1 := if u.urlProposed then st.proposed ++ [.urlUpdate] else st.proposed
    let taken1 := if u.urlTaken then st.taken + 1 else st.taken
    let modified1 := st.modified || u.urlTaken
    match pathCheck home dryRun st.fs u.repo with
    | .unparsable r =>
      { st with
        updated := st.updated ++ [r]
        proposed := proposed1
        taken := taken1
        modified := modified1 }
    | .done r fs2 ren moveProposed moveTaken fp =>
      let proposed2 := if moveProposed then proposed1 ++ [.move] else proposed1
      let taken2 := if moveTaken then taken1 + 1 else taken1
      let modified2 := modified1 || moveTaken
      let nc := nameCheck dryRun r fp
      { fs := fs2
        updated := st.updated ++ [nc.1]
        proposed := proposed2
        taken := taken2
        modified := modified2 || nc.2
        renames := st.renames ++ (match ren with | some x => [x] | none => []) }

/-- One full reconciliation pass (lines 42–218): fold the loop body over the
entry list; the boolean is whether the final `Save` runs
(`stateModified && !dryRunReorg`). -/
def reorganizePass (env : RemoteEnv) (home : String) (dryRun : Bool)
    (fs0 : List String) (repos : List RepositoryEntry) : PassState × Bool :=
  let final := repos.foldl (processEntry env home dryRun)
    { fs := fs0, updated := [], proposed := [], taken := 0, modified := false,
      renames := [] }
  (final, final.modified && !dryRun)

/-- The paths of the entries of a store. -/
def pathsOf (repos : List RepositoryEntry) : List String := repos.map (·.Path)

/-- One `AddRepository` call as a state transformer: an error return leaves
the store unchanged (the Go method returns before any mutation). -/
def applyAdd (repos : List RepositoryEntry) (op : Nat × RepositoryEntry) :
    List RepositoryEntry :=
  (addRepository op.1 repos op.2).getD repos

/-! ### A concrete registry for the three-entry reconciliation scenario

One healthy entry, one whose live remote drifted from the stored
`CurrentURL`, and one whose actual path differs from the conventional path
while the conventional target is already occupied on disk. -/

def scHome : String := "/git"

def scE1 : RepositoryEntry :=
  ⟨"one", "/git/github.com/a/one", "https://github.com/a/one",
   "https://github.com/a/one", "github.com", "github.com/a/one", 1, 1, 1, false, ""⟩

def scE2 : RepositoryEntry :=
  ⟨"two", "/git/github.com/a/two", "https://github.com/a/two",
   "https://github.com/a/two", "github.com", "github.com/a/two", 1, 1, 1, false, ""⟩

def scE3 : RepositoryEntry :=
  ⟨"three", "/git/misc/three", "https://github.com/a/three",
   "https://github.com/a/three", "github.com", "github.com/a/three", 1, 1, 1, false, ""⟩

def scFs : List String :=
  ["/git/github.com/a/one", "/git/github.com/a/two", "/git/misc/three",
   "/git/github.com/a/three"]

def scEnv : RemoteEnv :=
  { isGitRepo := fun _ => true
    remoteOrigin := fun p =>
      if p = "/git/github.com/a/one" then some "https://github.com/a/one"
      else if p = "/git/github.com/a/two" then some "https://github.com/b/two"
      else if p = "/git/misc/three" then some "https://github.com/a/three"
      else none }

/-! ## Theorems -/

/-- C1: parsing `"git@github.com:spf13/cobra.git"` succeeds with domain
`"github.com"`, repo-name `"cobra"` and the ssh flag set, but the resulting
path is `"spf13/cobra.git"`, not the claimed `"spf13/cobra"`: the `.git`
suffix is stripped only from the repo-name, contradicting the code's own
comments and the documented `GetLocalPath` example. -/
theorem c1_scp_parse_keeps_dotgit :
    parseGitURL "git@github.com:spf13/cobra.git" =
      some { OriginalURL := "git@github.com:spf13/cobra.git", Scheme := "ssh",
             User := "git", Host := "github.com", Domain := "github.com",
             Path := "spf13/cobra.git", RepoName := "cobra", IsSSH := true } ∧
    (parseGitURL "git@github.com:spf13/cobra.git").map (·.Path) ≠ some "spf13/cobra" := by
  constructor
  · rfl
  · decide

/-- C2: the HTTPS→SSH→HTTPS round trip does not preserve the normalized
identity for the well-formed HTTPS URL `"https://github.com/spf13/cobra.git"`:
`ToHTTPS` strips the `.git` suffix that `ParseGitURL` left inside `Path`, so
the round trip ends at `github.com/spf13/cobra` while the direct parse
normalizes to `github.com/spf13/cobra.git`. -/
theorem c2_roundtrip_identity_fails :
    ((((((parseGitURL "https://github.com/spf13/cobra.git").bind toSSH).bind
        parseGitURL).bind toHTTPS).bind parseGitURL).map getNormalizedFSPath =
      some "github.com/spf13/cobra") ∧
    (parseGitURL "https://github.com/spf13/cobra.git").map getNormalizedFSPath =
      some "github.com/spf13/cobra.git" ∧
    some "github.com/spf13/cobra" ≠ some ("github.com/spf13/cobra.git" : String) := by
  refine ⟨by rfl, by rfl, by decide⟩

/-- C3: parsing can succeed with an empty repo-name.  The SCP-like branch of
`ParseGitURL` returns before the domain/repo-name validation, so
`"git@github.com:.git"` parses successfully with `RepoName = ""`. -/
theorem c3_scp_branch_skips_validation :
    (parseGitURL "git@github.com:.git").isSome = true ∧
    (parseGitURL "git@github.com:.git").map (·.RepoName) = some "" := by
  constructor
  · rfl
  · rfl

/-- C4: `AddRepository` stamps `ClonedAt := now` on a zero incoming value
before the duplicate-path scan, so the carry-forward of the existing entry's
`ClonedAt` is dead code: updating the entry at path `"/r/p"` (existing
`ClonedAt = 5`) with an incoming entry whose `ClonedAt` is unset yields
`ClonedAt = 100` (the fresh stamp), not `5`. -/
theorem c4_clonedAt_not_carried_forward :
    (addRepository 100 [⟨"n", "/r/p", "u1", "cu", "d", "nfs", 3, 4, 5, false, ""⟩]
        ⟨"n", "/r/p", "u2", "cu2", "d", "nfs", 0, 0, 0, false, ""⟩).map
      (fun l => l.map (·.ClonedAt)) = some [100] ∧
    some [100] ≠ some [(5 : Nat)] := by
  constructor
  · rfl
  · decide

/-- C8 (counterexample): for the descriptor parsed from
`"https://alice@github.com/x/y"` the user component is `"alice"`, yet `ToSSH`
reconstructs `"git@github.com:x/y.git"` — the parsed user component is never
used for an http/https source (the `pu.Scheme == "ssh"` guard inside that
branch is unsatisfiable there). -/
theorem c8_user_component_ignored :
    (parseGitURL "https://alice@github.com/x/y").map (·.User) = some "alice" ∧
    ((parseGitURL "https://alice@github.com/x/y").bind toSSH) =
      some "git@github.com:x/y.git" ∧
    some "git@github.com:x/y.git" ≠ some ("alice@github.com:x/y.git" : String) := by
  refine ⟨by rfl, by rfl, by decide⟩

/-- C8 (amended): `ToSSH` succeeds exactly when the descriptor's ssh flag is
set (in which case the original URL string is returned unchanged) or the
scheme is http/https with a non-empty domain and path; for an http/https
descriptor it reconstructs `git@<domain>:<path>.git` — always with user
`"git"`, ignoring any parsed user component — appending `.git` when the path
does not already end in it. -/
theorem c8_toSSH_contract (p : ParsedGitURL) :
    ((toSSH p).isSome = true ↔
      (p.IsSSH = true ∨
        ((p.Scheme = "https" ∨ p.Scheme = "http") ∧ p.Domain ≠ "" ∧ p.Path ≠ ""))) ∧
    (p.IsSSH = true → toSSH p = some p.OriginalURL) ∧
    (p.IsSSH = false → (p.Scheme = "https" ∨ p.Scheme = "http") →
      p.Domain ≠ "" → p.Path ≠ "" →
      toSSH p = some ("git@" ++ p.Domain ++ ":" ++
        (if goHasSuf p.Path ".git" then p.Path else p.Path ++ ".git"))) := by
  unfold toSSH
  cases hssh : p.IsSSH with
  | true => simp
  | false =>
    simp only [Bool.false_eq_true, if_false, false_or]
    by_cases hsch : p.Scheme = "https" ∨ p.Scheme = "http"
    · have hnotssh : ¬ (p.User ≠ "" ∧ p.Scheme = "ssh") := by
        rcases hsch with h | h <;> rw [h] <;> simp
      by_cases hde : p.Domain = "" ∨ p.Path = ""
      · refine ⟨?_, by simp, ?_⟩
        · simp only [if_pos hsch, if_pos hde]
          simp only [Option.isSome_none]
          constructor
          · intro h; exact absurd h (by simp)
          · rintro ⟨-, hd, hp⟩
            rcases hde with h | h
            · exact absurd h hd
            · exact absurd h hp
        · intro _ _ hd hp
          rcases hde with h | h
          · exact absurd h hd
          · exact absurd h hp
      · refine ⟨?_, by simp, ?_⟩
        · simp only [if_pos hsch, if_neg hde]
          push_neg at hde
          simp [hsch, hde.1, hde.2]
        · intro _ _ _ _
          simp only [if_pos hsch, if_neg hde, if_neg hnotssh]
          rfl
    · refine ⟨?_, by simp, ?_⟩
      · simp only [if_neg hsch, Option.isSome_none]
        constructor
        · intro h; exact absurd h (by simp)
        · rintro ⟨h, -, -⟩; exact absurd h hsch
      · intro _ h _ _
        exact absurd h hsch

/-- C8 witness: the contract applied to a concrete ssh descriptor (returned
unchanged) and a concrete https descriptor (reconstructed with user `git`
and a `.git` suffix appended). -/
theorem c8_toSSH_contract_witness :
    toSSH ⟨"git@h:x", "ssh", "git", "h", "h", "x", "x", true⟩ = some "git@h:x" ∧
    toSSH ⟨"https://h/x", "https", "", "h", "h", "x", "x", false⟩ =
      some "git@h:x.git" :=
  ⟨(c8_toSSH_contract _).2.1 rfl,
   by
    have h := (c8_toSSH_contract
        ⟨"https://h/x", "https", "", "h", "h", "x", "x", false⟩).2.2
      rfl (Or.inl rfl) (by decide) (by decide)
    simpa using h⟩

/-- C9: in the reconciler's URL check, `ToHTTPS` conversion errors are
discarded as empty strings: when both the stored `CurrentURL` and the live
origin URL parse but neither converts to HTTPS, both sides normalize to `""`
and compare equal, so no update is proposed or applied and the entry is
returned untouched. -/
theorem c9_toHTTPS_errors_discarded (dryRun : Bool) (entry : RepositoryEntry)
    (live : String) (pl ps : ParsedGitURL)
    (hstored : parseGitURL entry.CurrentURL = some ps)
    (hlive : toHTTPS pl = none) (hps : toHTTPS ps = none) :
    urlCheck dryRun entry live pl = ⟨entry, false, false⟩ := by
  unfold urlCheck
  rw [hstored]
  simp [hlive, hps]

/-- C9 witness: stored URL `"/a/b"` and live URL `"/c/d"` are two different
colon-free local paths; both parse with scheme `file`, neither converts to
HTTPS, and the URL check proposes nothing. -/
theorem c9_toHTTPS_errors_discarded_witness :
    urlCheck false ⟨"b", "/p", "u", "/a/b", "d", "n", 1, 1, 1, false, ""⟩ "/c/d"
        ⟨"/c/d", "file", "", "", "local", "/c/d", "d", false⟩ =
      ⟨⟨"b", "/p", "u", "/a/b", "d", "n", 1, 1, 1, false, ""⟩, false, false⟩ :=
  c9_toHTTPS_errors_discarded false _ "/c/d" _
    ⟨"/a/b", "file", "", "", "local", "/a/b", "b", false⟩ (by rfl) (by rfl) (by rfl)

/-- The loop of `AddRepository` replaces in place on a path match (keeping
the path multiset unchanged) and appends otherwise. -/
theorem addLoop_pathsOf (e : RepositoryEntry) (repos : List RepositoryEntry) :
    pathsOf (addLoop e repos) =
      if e.Path ∈ pathsOf repos then pathsOf repos else pathsOf repos ++ [e.Path] := by
  induction repos with
  | nil => simp [addLoop, pathsOf]
  | cons r rest ih =>
    have hcons : pathsOf (r :: rest) = r.Path :: pathsOf rest := by simp [pathsOf]
    by_cases h : r.Path = e.Path
    · have hstep : pathsOf (addLoop e (r :: rest)) = e.Path :: pathsOf rest := by
        simp only [addLoop, if_pos h, pathsOf, List.map_cons]
        congr 1
        split <;> split <;> rfl
      have hmem : e.Path ∈ pathsOf (r :: rest) := by
        rw [hcons, ← h]; exact List.mem_cons_self _ _
      rw [hstep, if_pos hmem, hcons, h]
    · have hstep : pathsOf (addLoop e (r :: rest)) = r.Path :: pathsOf (addLoop e rest) := by
        simp only [addLoop, if_neg h, pathsOf, List.map_cons]
      rw [hstep, ih, hcons]
      by_cases hm : e.Path ∈ pathsOf rest
      · rw [if_pos hm, if_pos (List.mem_cons_of_mem _ hm)]
      · have hnm : e.Path ∉ r.Path :: pathsOf rest := by
          rw [List.mem_cons]
          rintro (hEq | hM)
          · exact h hEq.symm
          · exact hm hM
        rw [if_neg hm, if_neg hnm, List.cons_append]

/-- `addLoop` preserves path uniqueness. -/
theorem addLoop_nodup (e : RepositoryEntry) (repos : List RepositoryEntry)
    (h : (pathsOf repos).Nodup) : (pathsOf (addLoop e repos)).Nodup := by
  rw [addLoop_pathsOf]
  split
  · exact h
  · rename_i hm
    rw [List.nodup_append]
    exact ⟨h, List.nodup_singleton _, by simpa using hm⟩

/-- A successful `AddRepository` preserves path uniqueness. -/
theorem addRepository_nodup (now : Nat) (repos l : List RepositoryEntry)
    (e : RepositoryEntry) (hadd : addRepository now repos e = some l)
    (h : (pathsOf repos).Nodup) : (pathsOf l).Nodup := by
  unfold addRepository at hadd
  split at hadd
  · exact absurd hadd (by simp)
  · split at hadd
    · exact absurd hadd (by simp)
    · rw [Option.some.injEq] at hadd
      rw [← hadd]
      exact addLoop_nodup _ _ h

/-- C7: starting from the empty store, after any finite sequence of
`AddRepository` calls (failed calls leave the store untouched), no two
entries share a path. -/
theorem c7_upsert_paths_unique (ops : List (Nat × RepositoryEntry)) :
    (pathsOf (ops.foldl applyAdd [])).Nodup := by
  suffices h : ∀ (repos : List RepositoryEntry), (pathsOf repos).Nodup →
      (pathsOf (ops.foldl applyAdd repos)).Nodup from
    h [] (by simp [pathsOf])
  induction ops with
  | nil => intro repos h; simpa using h
  | cons op rest ih =>
    intro repos h
    rw [List.foldl_cons]
    refine ih _ ?_
    unfold applyAdd
    cases hadd : addRepository op.1 repos op.2 with
    | none => simpa using h
    | some l => simpa using addRepository_nodup op.1 repos l op.2 hadd h

/-- Setting the cell just past a list rewrites only that cell. -/
theorem list_set_append_length {α : Type} (l : List α) (r v : α) :
    (l ++ [r]).set l.length v = l ++ [v] := by
  induction l with
  | nil => rfl
  | cons x xs ih => simp [List.set, ih]

/-- C10: the registry lookups return a pointer to a fresh cell holding a copy
of the first matching entry — an address at or beyond the store's backing
array — the lookup leaves every store cell unchanged, and writing any value
through the returned pointer still leaves every store cell unchanged. -/
theorem c10_find_returns_copy
    (mem : List RepositoryEntry) (storeLen : Nat) (p q : String)
    (ptrP ptrQ : Nat) (memP memQ : List RepositoryEntry)
    (v w : RepositoryEntry) (i : Nat)
    (hlen : storeLen ≤ mem.length) (hi : i < storeLen)
    (hp : findByPathAlloc mem storeLen p = (some ptrP, memP))
    (hq : findByURLAlloc mem storeLen q = (some ptrQ, memQ)) :
    (memP[ptrP]? = findRepositoryByPath (mem.take storeLen) p ∧
     storeLen ≤ ptrP ∧ memP[i]? = mem[i]? ∧ (memP.set ptrP v)[i]? = mem[i]?) ∧
    (memQ[ptrQ]? = findRepositoryByOriginalURL (mem.take storeLen) q ∧
     storeLen ≤ ptrQ ∧ memQ[i]? = mem[i]? ∧ (memQ.set ptrQ w)[i]? = mem[i]?) := by
  have hilen : i < mem.length := lt_of_lt_of_le hi hlen
  constructor
  · unfold findByPathAlloc at hp
    cases hfind : findRepositoryByPath (mem.take storeLen) p with
    | none => rw [hfind] at hp; exact absurd hp (by simp)
    | some r =>
      rw [hfind] at hp
      simp only [Prod.mk.injEq, Option.some.injEq] at hp
      obtain ⟨hp1, hp2⟩ := hp
      subst hp2
      rw [← hp1]
      refine ⟨List.getElem?_concat_length mem r, hlen, ?_, ?_⟩
      · rw [List.getElem?_append, if_pos hilen]
      · rw [list_set_append_length, List.getElem?_append, if_pos hilen]
  · unfold findByURLAlloc at hq
    cases hfind : findRepositoryByOriginalURL (mem.take storeLen) q with
    | none => rw [hfind] at hq; exact absurd hq (by simp)
    | some r =>
      rw [hfind] at hq
      simp only [Prod.mk.injEq, Option.some.injEq] at hq
      obtain ⟨hq1, hq2⟩ := hq
      subst hq2
      rw [← hq1]
      refine ⟨List.getElem?_concat_length mem r, hlen, ?_, ?_⟩
      · rw [List.getElem?_append, if_pos hilen]
      · rw [list_set_append_length, List.getElem?_append, if_pos hilen]

/-- C10 witness: a one-entry store; both lookups hand back the copy at the
fresh address `1`, and overwriting it with a blank entry leaves the store's
cell `0` untouched. -/
theorem c10_find_returns_copy_witness :
    (([⟨"w", "/w", "uw", "cw", "d", "n", 1, 1, 1, false, ""⟩,
       ⟨"w", "/w", "uw", "cw", "d", "n", 1, 1, 1, false, ""⟩] :
        List RepositoryEntry).set 1 ⟨"", "", "", "", "", "", 0, 0, 0, false, ""⟩)[0]? =
      ([⟨"w", "/w", "uw", "cw", "d", "n", 1, 1, 1, false, ""⟩] :
        List RepositoryEntry)[0]? :=
  ((c10_find_returns_copy
      [⟨"w", "/w", "uw", "cw", "d", "n", 1, 1, 1, false, ""⟩] 1 "/w" "uw" 1 1
      [⟨"w", "/w", "uw", "cw", "d", "n", 1, 1, 1, false, ""⟩,
       ⟨"w", "/w", "uw", "cw", "d", "n", 1, 1, 1, false, ""⟩]
      [⟨"w", "/w", "uw", "cw", "d", "n", 1, 1, 1, false, ""⟩,
       ⟨"w", "/w", "uw", "cw", "d", "n", 1, 1, 1, false, ""⟩]
      ⟨"", "", "", "", "", "", 0, 0, 0, false, ""⟩
      ⟨"", "", "", "", "", "", 0, 0, 0, false, ""⟩ 0
      (by decide) (by decide) (by rfl) (by rfl)).1).2.2.2

/-- The URL check never touches the entry's path. -/
theorem urlCheck_repo_path (d : Bool) (e : RepositoryEntry) (l : String)
    (pl : ParsedGitURL) : (urlCheck d e l pl).repo.Path = e.Path := by
  unfold urlCheck
  simp only
  split_ifs <;> rfl

/-- The name check never touches the entry's path. -/
theorem nameCheck_path (d : Bool) (r : RepositoryEntry) (fp : ParsedGitURL) :
    ((nameCheck d r fp).1).Path = r.Path := by
  unfold nameCheck
  split_ifs <;> rfl

/-- In apply mode, when the conventional target is occupied, the path check
performs no rename, leaves the filesystem as it is, and leaves the entry
untouched. -/
theorem pathCheck_conflict (home : String) (fs : List String)
    (repo : RepositoryEntry) (fp : ParsedGitURL)
    (hparse : parseGitURL repo.CurrentURL = some fp)
    (hocc : fsMem fs (getLocalPath fp home) = true) :
    ∃ b, pathCheck home false fs repo = .done repo fs none b false fp := by
  unfold pathCheck
  rw [hparse]
  simp only
  by_cases hne : goTrimRightSlash (filepathClean repo.Path) ≠
      goTrimRightSlash (filepathClean (getLocalPath fp home))
  · refine ⟨true, ?_⟩
    rw [if_pos hne, if_pos (by simp : ¬ (false : Bool) = true), if_pos hocc]
  · refine ⟨false, ?_⟩
    rw [if_neg hne]

/-- C5: in apply mode, for an entry that reaches the path check with a
conventional target that already exists on disk, the pass performs no rename,
the filesystem is untouched, and the entry appended to the updated collection
keeps its original path. -/
theorem c5_conflict_no_move (env : RemoteEnv) (home : String) (st : PassState)
    (entry : RepositoryEntry) (live : String) (pl fp : ParsedGitURL)
    (hh : healthCheck env st.fs entry = some (live, pl))
    (hp : parseGitURL (urlCheck false entry live pl).repo.CurrentURL = some fp)
    (hc : fsMem st.fs (getLocalPath fp home) = true) :
    (processEntry env home false st entry).fs = st.fs ∧
    (processEntry env home false st entry).renames = st.renames ∧
    (processEntry env home false st entry).updated.map (·.Path) =
      st.updated.map (·.Path) ++ [entry.Path] := by
  obtain ⟨b, hb⟩ := pathCheck_conflict home st.fs (urlCheck false entry live pl).repo fp hp hc
  unfold processEntry
  simp only [hh, hb]
  refine ⟨by trivial, by simp, ?_⟩
  simp [nameCheck_path, urlCheck_repo_path]

/-- C5 witness: the conflict entry of the concrete scenario, processed in
apply mode with its conventional target occupied: no rename happens and the
resulting entry keeps the path `"/git/misc/three"`. -/
theorem c5_conflict_no_move_witness :
    (processEntry scEnv scHome false
        { fs := scFs, updated := [], proposed := [], taken := 0,
          modified := false, renames := [] } scE3).renames = [] ∧
    (processEntry scEnv scHome false
        { fs := scFs, updated := [], proposed := [], taken := 0,
          modified := false, renames := [] } scE3).updated.map (·.Path) =
      ["/git/misc/three"] := by
  have h := c5_conflict_no_move scEnv scHome
    { fs := scFs, updated := [], proposed := [], taken := 0,
      modified := false, renames := [] } scE3 "https://github.com/a/three"
    ⟨"https://github.com/a/three", "https", "", "github.com", "github.com",
     "a/three", "three", false⟩
    ⟨"https://github.com/a/three", "https", "", "github.com", "github.com",
     "a/three", "three", false⟩
    (by rfl) (by rfl) (by rfl)
  exact ⟨h.2.1, h.2.2⟩

/-- A dry-run URL check never applies an update. -/
theorem urlCheck_dry (e : RepositoryEntry) (l : String) (pl : ParsedGitURL) :
    (urlCheck true e l pl).urlTaken = false := by
  unfold urlCheck
  simp only
  split_ifs <;> simp_all

/-- A dry-run name check never marks the state modified. -/
theorem nameCheck_dry (r : RepositoryEntry) (fp : ParsedGitURL) :
    (nameCheck true r fp).2 = false := by
  unfold nameCheck
  split_ifs <;> rfl

/-- A dry-run path check leaves the filesystem and the entry untouched and
never renames. -/
theorem pathCheck_dry (home : String) (fs : List String) (repo : RepositoryEntry) :
    pathCheck home true fs repo = .unparsable repo ∨
    ∃ b fp, pathCheck home true fs repo = .done repo fs none b false fp := by
  unfold pathCheck
  cases hparse : parseGitURL repo.CurrentURL with
  | none => left; rfl
  | some fp =>
    right
    simp only
    by_cases hne : goTrimRightSlash (filepathClean repo.Path) ≠
        goTrimRightSlash (filepathClean (getLocalPath fp home))
    · exact ⟨true, fp, by rw [if_pos hne, if_neg (not_not_intro trivial)]⟩
    · exact ⟨false, fp, by rw [if_neg hne]⟩

/-- A dry-run loop body preserves the filesystem, the rename log and the
modified flag. -/
theorem processEntry_dry (env : RemoteEnv) (home : String) (st : PassState)
    (e : RepositoryEntry) :
    (processEntry env home true st e).fs = st.fs ∧
    (processEntry env home true st e).renames = st.renames ∧
    (processEntry env home true st e).modified = st.modified := by
  unfold processEntry
  cases hh : healthCheck env st.fs e with
  | none => exact ⟨rfl, rfl, rfl⟩
  | some lp =>
    obtain ⟨live, pl⟩ := lp
    rcases pathCheck_dry home st.fs (urlCheck true e live pl).repo with hpc | ⟨b, fp, hpc⟩
    · simp only [hpc]
      exact ⟨by trivial, by trivial, by simp [urlCheck_dry]⟩
    · simp only [hpc]
      refine ⟨by trivial, by simp, ?_⟩
      simp [urlCheck_dry, nameCheck_dry]

/-- A dry-run pass leaves the filesystem untouched, renames nothing and
never saves. -/
theorem reorganizePass_dry (env : RemoteEnv) (home : String) (fs0 : List String)
    (repos : List RepositoryEntry) :
    (reorganizePass env home true fs0 repos).1.fs = fs0 ∧
    (reorganizePass env home true fs0 repos).1.renames = [] ∧
    (reorganizePass env home true fs0 repos).2 = false := by
  unfold reorganizePass
  simp only
  suffices h : ∀ (st : PassState),
      (repos.foldl (processEntry env home true) st).fs = st.fs ∧
      (repos.foldl (processEntry env home true) st).renames = st.renames by
    obtain ⟨h1, h2⟩ := h { fs := fs0, updated := [], proposed := [], taken := 0,
                           modified := false, renames := [] }
    exact ⟨h1, h2, by simp⟩
  induction repos with
  | nil => intro st; exact ⟨rfl, rfl⟩
  | cons e rest ih =>
    intro st
    rw [List.foldl_cons]
    obtain ⟨ih1, ih2⟩ := ih (processEntry env home true st e)
    obtain ⟨p1, p2, _⟩ := processEntry_dry env home st e
    exact ⟨ih1.trans p1, ih2.trans p2⟩

/-- C6: a dry-run reconciliation pass performs no filesystem move and writes
no persisted state, for every environment and registry; and on the concrete
three-entry registry (one healthy, one with URL drift, one with a path
conflict at an occupied target) it proposes exactly one URL update and one
move — two proposed actions in total — with zero actions taken, zero files
moved and no state write. -/
theorem c6_dry_run_frame :
    (∀ (env : RemoteEnv) (home : String) (fs0 : List String)
       (repos : List RepositoryEntry),
       (reorganizePass env home true fs0 repos).1.fs = fs0 ∧
       (reorganizePass env home true fs0 repos).1.renames = [] ∧
       (reorganizePass env home true fs0 repos).2 = false) ∧
    (reorganizePass scEnv scHome true scFs [scE1, scE2, scE3]).1.proposed =
      [ProposedAction.urlUpdate, ProposedAction.move] ∧
    (reorganizePass scEnv scHome true scFs [scE1, scE2, scE3]).1.taken = 0 ∧
    (reorganizePass scEnv scHome true scFs [scE1, scE2, scE3]).1.renames = [] ∧
    (reorganizePass scEnv scHome true scFs [scE1, scE2, scE3]).2 = false := by
  refine ⟨reorganizePass_dry, by rfl, by rfl, by rfl, by rfl⟩

end FussyGit
